import Mathlib

/-!
# SuiteQL query editor — verification of the OAuth 1.0a signing core

A shallow embedding of the request-signing engine (`oauth.js`), the shipped
credential table (`secret.js`) and the realm-resolution / credential-dispatch
fragment of the Suitelet's `executeQuery`, together with proofs about the
spec-level claims on them.

JavaScript strings are modelled as Lean `String`s (sequences of Unicode
scalar values); JavaScript objects as insertion-ordered association lists
whose enumeration order follows the ECMAScript own-property order
(array-index-like keys first, ascending, then the remaining keys in
insertion order). Fallible operations (`decodeURIComponent`, thrown
errors) return `Option` / `Except`.
-/

set_option maxRecDepth 10000

namespace SuiteQL

/-! ## JavaScript string primitives -/

/-- The UTF-16 code units of a Unicode scalar value (a surrogate pair above
`0xFFFF`), used to model JavaScript's default string comparison. -/
def utf16Units (c : Char) : List Nat :=
  if c.toNat < 0x10000 then [c.toNat]
  else [0xD800 + (c.toNat - 0x10000) / 0x400, 0xDC00 + (c.toNat - 0x10000) % 0x400]

/-- Strict lexicographic order on code-unit sequences. -/
def unitsLt : List Nat → List Nat → Bool
  | [], [] => false
  | [], _ :: _ => true
  | _ :: _, [] => false
  | a :: as, b :: bs => if a < b then true else if b < a then false else unitsLt as bs

/-- JavaScript's default string `<`: lexicographic comparison of UTF-16 code
units (this differs from code-point order above the BMP). -/
def jsStrLt (a b : String) : Bool :=
  unitsLt (a.data.map utf16Units).flatten (b.data.map utf16Units).flatten

/-- Insert into a list sorted by `jsStrLt`. -/
def insertSorted (x : String) : List String → List String
  | [] => [x]
  | y :: ys => if jsStrLt x y then x :: y :: ys else y :: insertSorted x ys

/-- `Array.prototype.sort()` on an array of strings (default comparator). -/
def jsSortStrs (l : List String) : List String := l.foldr insertSorted []

/-- UTF-8 encoding of a Unicode scalar value. -/
def utf8Bytes (c : Char) : List Nat :=
  let n := c.toNat
  if n < 0x80 then [n]
  else if n < 0x800 then [0xC0 + n / 0x40, 0x80 + n % 0x40]
  else if n < 0x10000 then [0xE0 + n / 0x1000, 0x80 + n / 0x40 % 0x40, 0x80 + n % 0x40]
  else [0xF0 + n / 0x40000, 0x80 + n / 0x1000 % 0x40, 0x80 + n / 0x40 % 0x40, 0x80 + n % 0x40]

/-- Upper-case hexadecimal digit. -/
def hexUpper (d : Nat) : Char := "0123456789ABCDEF".data.getD d '0'

/-- `%XX` escape of one byte, upper-case hex — as produced by
`encodeURIComponent`. -/
def pctByte (b : Nat) : List Char := ['%', hexUpper (b / 16), hexUpper (b % 16)]

/-- The characters `encodeURIComponent` leaves unescaped
(`uriUnescaped` in ECMA-262): ASCII alphanumerics and `- _ . ! ~ * ' ( )`. -/
def uriUnescaped (c : Char) : Bool :=
  (65 ≤ c.toNat && c.toNat ≤ 90) || (97 ≤ c.toNat && c.toNat ≤ 122) ||
  (48 ≤ c.toNat && c.toNat ≤ 57) ||
  c == '-' || c == '_' || c == '.' || c == '!' || c == '~' ||
  c == '*' || c == '\'' || c == '(' || c == ')'

/-- One character's contribution to `encodeURIComponent`'s output. -/
def encChar (c : Char) : List Char :=
  if uriUnescaped c then [c] else ((utf8Bytes c).map pctByte).flatten

/-- ECMAScript `encodeURIComponent`. -/
def encodeURIComponent (s : String) : String := String.mk ((s.data.map encChar).flatten)

/-- Global single-character replacement, as the regexes `/\!/g` … with a
one-character pattern behave. -/
def replaceAllChar (c : Char) (rep : List Char) (l : List Char) : List Char :=
  (l.map (fun x => if x == c then rep else [x])).flatten

/-- oauth.js `percentEncode` (lines 117-124): `encodeURIComponent`, then the
five characters a generic URI encoder leaves unescaped are re-encoded. -/
def percentEncode (s : String) : String :=
  String.mk (replaceAllChar ')' ['%', '2', '9']
    (replaceAllChar '(' ['%', '2', '8']
      (replaceAllChar '\'' ['%', '2', '7']
        (replaceAllChar '*' ['%', '2', 'A']
          (replaceAllChar '!' ['%', '2', '1'] (encodeURIComponent s).data)))))

/-- Value of a hexadecimal digit character (either case), for
`decodeURIComponent`. -/
def hexVal (c : Char) : Option Nat :=
  if 48 ≤ c.toNat && c.toNat ≤ 57 then some (c.toNat - 48)
  else if 65 ≤ c.toNat && c.toNat ≤ 70 then some (c.toNat - 55)
  else if 97 ≤ c.toNat && c.toNat ≤ 102 then some (c.toNat - 87)
  else none

/-- First pass of ECMAScript `Decode`: each `%XX` becomes a byte
(`Sum.inl`), every other character passes through (`Sum.inr`);
a malformed escape is a `URIError`. -/
def pctTokens : List Char → Option (List (Nat ⊕ Char))
  | [] => some []
  | '%' :: h :: l :: rest => do
      let hv ← hexVal h
      let lv ← hexVal l
      let tl ← pctTokens rest
      pure (Sum.inl (16 * hv + lv) :: tl)
  | '%' :: _ => none
  | c :: rest => (pctTokens rest).map (fun tl => Sum.inr c :: tl)

/-- UTF-8 continuation byte. -/
def contByte (b : Nat) : Bool := 128 ≤ b && b < 192

/-- Second pass of ECMAScript `Decode`: runs of escaped bytes must form valid
UTF-8 (no overlong forms, no surrogates, at most `U+10FFFF`). -/
def utf8Decode : List (Nat ⊕ Char) → Option (List Char)
  | [] => some []
  | Sum.inr c :: t => (utf8Decode t).map (fun l => c :: l)
  | Sum.inl b :: t =>
    if b < 0x80 then (utf8Decode t).map (fun l => Char.ofNat b :: l)
    else if 0xC2 ≤ b && b ≤ 0xDF then
      match t with
      | Sum.inl b2 :: t2 =>
        if contByte b2 then
          (utf8Decode t2).map (fun l => Char.ofNat ((b - 0xC0) * 64 + (b2 - 0x80)) :: l)
        else none
      | _ => none
    else if 0xE0 ≤ b && b ≤ 0xEF then
      match t with
      | Sum.inl b2 :: Sum.inl b3 :: t3 =>
        if contByte b2 && contByte b3 then
          let cp := (b - 0xE0) * 4096 + (b2 - 0x80) * 64 + (b3 - 0x80)
          if 0x800 ≤ cp && !(0xD800 ≤ cp && cp ≤ 0xDFFF) then
            (utf8Decode t3).map (fun l => Char.ofNat cp :: l)
          else none
        else none
      | _ => none
    else if 0xF0 ≤ b && b ≤ 0xF4 then
      match t with
      | Sum.inl b2 :: Sum.inl b3 :: Sum.inl b4 :: t4 =>
        if contByte b2 && contByte b3 && contByte b4 then
          let cp := (b - 0xF0) * 262144 + (b2 - 0x80) * 4096 + (b3 - 0x80) * 64 + (b4 - 0x80)
          if 0x10000 ≤ cp && cp ≤ 0x10FFFF then
            (utf8Decode t4).map (fun l => Char.ofNat cp :: l)
          else none
        else none
      | _ => none
    else none

/-- ECMAScript `decodeURIComponent`; `none` models a thrown `URIError`. -/
def jsDecodeURIComponent (s : String) : Option String :=
  (pctTokens s.data).bind (fun toks => (utf8Decode toks).map String.mk)

/-- `String.prototype.toUpperCase`, restricted to the ASCII mapping (target
URLs and HTTP methods in this program are ASCII; the source's full Unicode
case mapping is not modelled). -/
def jsToUpperCase (s : String) : String := String.mk (s.data.map Char.toUpper)

/-- `s.slice(0, -n)`: drops the last `n` characters; JavaScript's `-0` is `0`,
so `n = 0` yields the empty string. -/
def jsSliceTrim (s : String) (n : Nat) : String :=
  if n == 0 then "" else String.mk (s.data.take (s.data.length - n))

/-- Does `l` start with `pat`? -/
def listStartsWith : List Char → List Char → Bool
  | _, [] => true
  | [], _ :: _ => false
  | c :: cs, p :: ps => c == p && listStartsWith cs ps

/-- Substring test, as `String.prototype.indexOf(pat) !== -1` decides it. -/
def listContains (l pat : List Char) : Bool :=
  match l with
  | [] => pat.isEmpty
  | _ :: t => listStartsWith l pat || listContains t pat

/-- Worker for `jsSplit`: scans left to right, emitting a piece at each
non-overlapping occurrence of the (non-empty) separator. The fuel — at least
the input length — keeps the recursion structural. -/
def splitOnListGo (sep : List Char) : Nat → List Char → List Char → List (List Char)
  | _, [], cur => [cur.reverse]
  | 0, l, cur => [cur.reverse ++ l]
  | fuel + 1, c :: rest, cur =>
      if listStartsWith (c :: rest) sep && !sep.isEmpty then
        cur.reverse :: splitOnListGo sep fuel ((c :: rest).drop sep.length) []
      else splitOnListGo sep fuel rest (c :: cur)

/-- `String.prototype.split` with a non-empty string separator. -/
def jsSplit (s sep : String) : List String :=
  (splitOnListGo sep.data s.data.length s.data []).map String.mk

/-! ## JavaScript objects

An object is an insertion-ordered association list without duplicate keys
(operations preserve that). `for…in` / `Object.keys` enumeration follows the
ECMAScript own-property order: array-index-like keys first in ascending
numeric order, then the rest in insertion order. -/

/-- A property value in the objects `oauth.js` manipulates: a string or an
array of strings. -/
inductive JsVal where
  | str (s : String)
  | arr (l : List String)
deriving DecidableEq, Repr

abbrev JsObj := List (String × JsVal)

/-- Property read. -/
def getVal (o : JsObj) (k : String) : Option JsVal :=
  match o with
  | [] => none
  | (k', v) :: t => if k' == k then some v else getVal t k

/-- Property write: update in place (keeping the key's position) or append. -/
def setKey (o : JsObj) (k : String) (v : JsVal) : JsObj :=
  match o with
  | [] => [(k, v)]
  | (k', v') :: t => if k' == k then (k', v) :: t else (k', v') :: setKey t k v

/-- ASCII digit. -/
def isDigitCh (c : Char) : Bool := 48 ≤ c.toNat && c.toNat ≤ 57

/-- Numeric value of a digit string. -/
def digitsToNat (l : List Char) : Nat := l.foldl (fun a c => 10 * a + (c.toNat - 48)) 0

/-- Is the key an array index in the ECMAScript sense: the canonical decimal
form of an integer below `2^32 - 1`? Such keys enumerate first, ascending. -/
def arrayIndexVal (s : String) : Option Nat :=
  if s.data.isEmpty then none
  else if !(s.data.all isDigitCh) then none
  else if s.data.headD '0' == '0' && s != "0" then none
  else
    let n := digitsToNat s.data
    if n < 4294967295 then some n else none

/-- Insertion into a list of index-tagged properties sorted by index. -/
def insertByIdx (x : Nat × (String × JsVal)) :
    List (Nat × (String × JsVal)) → List (Nat × (String × JsVal))
  | [] => [x]
  | y :: ys => if x.1 < y.1 then x :: y :: ys else y :: insertByIdx x ys

/-- Sort index-tagged properties by index. -/
def sortByIdx (l : List (Nat × (String × JsVal))) : List (Nat × (String × JsVal)) :=
  l.foldr insertByIdx []

/-- ECMAScript own-property enumeration order: array-index-like keys
ascending, then the remaining keys in insertion order. -/
def iterOrder (o : JsObj) : JsObj :=
  let indexed := o.filterMap (fun p => (arrayIndexVal p.1).map (fun n => (n, p)))
  (sortByIdx indexed).map Prod.snd ++ o.filter (fun p => (arrayIndexVal p.1).isNone)

/-- `Object.keys` / `for…in` key sequence. -/
def iterKeys (o : JsObj) : List String := (iterOrder o).map Prod.fst

/-- oauth.js `mergeObject` (lines 175-183): copies `obj2`'s properties into
`obj1` — which the source mutates in place and returns, so every caller's
first argument aliases the result. -/
def mergeObject (obj1 obj2 : JsObj) : JsObj :=
  (iterOrder obj2).foldl (fun acc p => setKey acc p.1 p.2) obj1

/-- oauth.js `sortObject` (lines 185-193): a fresh object whose keys are
inserted in `Array.prototype.sort()` order. -/
def sortObject (data : JsObj) : JsObj :=
  (jsSortStrs (iterKeys data)).foldl
    (fun acc k => setKey acc k ((getVal data k).getD (.str "undefined"))) []

/-- oauth.js `percentEncodeData` (lines 126-142): a fresh object with every
key and every value (each element of an array value) percent-encoded. -/
def percentEncodeData (data : JsObj) : JsObj :=
  (iterOrder data).foldl (fun acc p =>
    let value := match p.2 with
      | .arr l => JsVal.arr (l.map percentEncode)
      | .str s => JsVal.str (percentEncode s)
    setKey acc (percentEncode p.1) value) []

/-! ## Hash functions

Modelled from the spec: `oauth.js` loads its digests from `./cryptojs`, a
repository file that is not under `src/`. The spec pins the behavior — "for
`HMAC-SHA1`/`HMAC-SHA256`, compute the HMAC of the base string using the
signing key as the HMAC key, then Base64-encode the raw digest bytes" — so
the standard algorithms (FIPS 180-4 SHA-1/SHA-256, RFC 2104 HMAC, RFC 4648
Base64) are embedded here, with strings read as UTF-8 as CryptoJS parses
them. -/

/-- UTF-8 bytes of a string. -/
def utf8Encode (s : String) : List Nat := (s.data.map utf8Bytes).flatten

/-- `2^32`. -/
def m32 : Nat := 4294967296

/-- 32-bit wrapping addition. -/
def add32 (a b : Nat) : Nat := (a + b) % m32

/-- 32-bit left rotation. -/
def rotl32 (x n : Nat) : Nat := ((x <<< n) % m32) ||| (x >>> (32 - n))

/-- 32-bit right rotation. -/
def rotr32 (x n : Nat) : Nat := (x >>> n) ||| ((x <<< (32 - n)) % m32)

/-- 32-bit complement. -/
def not32 (x : Nat) : Nat := x ^^^ 4294967295

/-- Big-endian 64-bit byte encoding. -/
def be64 (n : Nat) : List Nat :=
  [n / 2 ^ 56 % 256, n / 2 ^ 48 % 256, n / 2 ^ 40 % 256, n / 2 ^ 32 % 256,
   n / 2 ^ 24 % 256, n / 2 ^ 16 % 256, n / 2 ^ 8 % 256, n % 256]

/-- Merkle–Damgård padding shared by SHA-1 and SHA-256: `0x80`, zeros to 56
mod 64, then the bit length, big-endian. -/
def padMsg (msg : List Nat) : List Nat :=
  msg ++ 0x80 :: List.replicate ((119 - msg.length % 64) % 64) 0 ++ be64 (8 * msg.length)

/-- Split into 64-byte blocks; the fuel (at least the number of blocks) keeps
the recursion structural. -/
def chunks64Go : Nat → List Nat → List (List Nat)
  | 0, _ => []
  | _ + 1, [] => []
  | fuel + 1, l => l.take 64 :: chunks64Go fuel (l.drop 64)

/-- Split into 64-byte blocks. -/
def chunks64 (l : List Nat) : List (List Nat) := chunks64Go l.length l

/-- Big-endian 32-bit words from bytes. -/
def bytesToWords : List Nat → List Nat
  | b1 :: b2 :: b3 :: b4 :: rest =>
      (b1 * 2 ^ 24 + b2 * 2 ^ 16 + b3 * 2 ^ 8 + b4) :: bytesToWords rest
  | _ => []

/-- Bytes of big-endian 32-bit words. -/
def wordsToBytes (l : List Nat) : List Nat :=
  (l.map (fun w => [w / 2 ^ 24 % 256, w / 2 ^ 16 % 256, w / 2 ^ 8 % 256, w % 256])).flatten

/-- SHA-256 round constants. -/
def sha256K : List Nat :=
  [1116352408, 1899447441, 3049323471, 3921009573, 961987163, 1508970993,
   2453635748, 2870763221, 3624381080, 310598401, 607225278, 1426881987,
   1925078388, 2162078206, 2614888103, 3248222580, 3835390401, 4022224774,
   264347078, 604807628, 770255983, 1249150122, 1555081692, 1996064986,
   2554220882, 2821834349, 2952996808, 3210313671, 3336571891, 3584528711,
   113926993, 338241895, 666307205, 773529912, 1294757372, 1396182291,
   1695183700, 1986661051, 2177026350, 2456956037, 2730485921, 2820302411,
   3259730800, 3345764771, 3516065817, 3600352804, 4094571909, 275423344,
   430227734, 506948616, 659060556, 883997877, 958139571, 1322822218,
   1537002063, 1747873779, 1955562222, 2024104815, 2227730452, 2361852424,
   2428436474, 2756734187, 3204031479, 3329325298]

/-- SHA-256 initial state. -/
def sha256H0 : List Nat :=
  [1779033703, 3144134277, 1013904242, 2773480762,
   1359893119, 2600822924, 528734635, 1541459225]

/-- SHA-256 `σ₀`. -/
def smallSigma0 (x : Nat) : Nat := rotr32 x 7 ^^^ rotr32 x 18 ^^^ (x >>> 3)

/-- SHA-256 `σ₁`. -/
def smallSigma1 (x : Nat) : Nat := rotr32 x 17 ^^^ rotr32 x 19 ^^^ (x >>> 10)

/-- SHA-256 `Σ₀`. -/
def bigSigma0 (x : Nat) : Nat := rotr32 x 2 ^^^ rotr32 x 13 ^^^ rotr32 x 22

/-- SHA-256 `Σ₁`. -/
def bigSigma1 (x : Nat) : Nat := rotr32 x 6 ^^^ rotr32 x 11 ^^^ rotr32 x 25

/-- SHA `Ch`. -/
def chF (x y z : Nat) : Nat := (x &&& y) ^^^ (not32 x &&& z)

/-- SHA `Maj`. -/
def majF (x y z : Nat) : Nat := (x &&& y) ^^^ (x &&& z) ^^^ (y &&& z)

/-- Extend a 16-word SHA-256 schedule by `count` words. -/
def extendWords (w : List Nat) : Nat → List Nat
  | 0 => w
  | n + 1 =>
      let i := w.length
      extendWords (w ++ [add32 (add32 (smallSigma1 (w.getD (i - 2) 0)) (w.getD (i - 7) 0))
        (add32 (smallSigma0 (w.getD (i - 15) 0)) (w.getD (i - 16) 0))]) n

/-- One SHA-256 compression. -/
def sha256Compress (h : List Nat) (block : List Nat) : List Nat :=
  let w := extendWords (bytesToWords block) 48
  let final := (sha256K.zip w).foldl (fun st kw =>
    let a := st.getD 0 0
    let b := st.getD 1 0
    let c := st.getD 2 0
    let d := st.getD 3 0
    let e := st.getD 4 0
    let f := st.getD 5 0
    let g := st.getD 6 0
    let hh := st.getD 7 0
    let t1 := add32 hh (add32 (bigSigma1 e) (add32 (chF e f g) (add32 kw.1 kw.2)))
    let t2 := add32 (bigSigma0 a) (majF a b c)
    [add32 t1 t2, a, b, c, add32 d t1, e, f, g]) h
  List.zipWith add32 h final

/-- SHA-256 of a byte string. -/
def sha256Bytes (msg : List Nat) : List Nat :=
  wordsToBytes ((chunks64 (padMsg msg)).foldl sha256Compress sha256H0)

/-- SHA-1 initial state. -/
def sha1H0 : List Nat := [1732584193, 4023233417, 2562383102, 271733878, 3285377520]

/-- Extend a 16-word SHA-1 schedule by `count` words. -/
def sha1Extend (w : List Nat) : Nat → List Nat
  | 0 => w
  | n + 1 =>
      let i := w.length
      sha1Extend (w ++ [rotl32 (w.getD (i - 3) 0 ^^^ w.getD (i - 8) 0 ^^^
        w.getD (i - 14) 0 ^^^ w.getD (i - 16) 0) 1]) n

/-- SHA-1 round function. -/
def sha1F (t b c d : Nat) : Nat :=
  if t < 20 then (b &&& c) ||| (not32 b &&& d)
  else if t < 40 then b ^^^ c ^^^ d
  else if t < 60 then (b &&& c) ||| (b &&& d) ||| (c &&& d)
  else b ^^^ c ^^^ d

/-- SHA-1 round constants. -/
def sha1K (t : Nat) : Nat :=
  if t < 20 then 1518500249
  else if t < 40 then 1859775393
  else if t < 60 then 2400959708
  else 3395469782

/-- One SHA-1 compression. -/
def sha1Compress (h : List Nat) (block : List Nat) : List Nat :=
  let w := sha1Extend (bytesToWords block) 64
  let final := (List.range 80).foldl (fun st t =>
    let a := st.getD 0 0
    let b := st.getD 1 0
    let c := st.getD 2 0
    let d := st.getD 3 0
    let e := st.getD 4 0
    let tmp := add32 (rotl32 a 5)
      (add32 (sha1F t b c d) (add32 e (add32 (sha1K t) (w.getD t 0))))
    [tmp, a, rotl32 b 30, c, d]) h
  List.zipWith add32 h final

/-- SHA-1 of a byte string. -/
def sha1Bytes (msg : List Nat) : List Nat :=
  wordsToBytes ((chunks64 (padMsg msg)).foldl sha1Compress sha1H0)

/-- RFC 2104 HMAC with a 64-byte block. -/
def hmac (hash : List Nat → List Nat) (key msg : List Nat) : List Nat :=
  let k0 := if 64 < key.length then hash key else key
  let k := k0 ++ List.replicate (64 - k0.length) 0
  hash ((k.map (fun b => b ^^^ 0x5C)) ++ hash ((k.map (fun b => b ^^^ 0x36)) ++ msg))

/-- The Base64 alphabet. -/
def base64Chars : List Char :=
  "ABCDEFGHIJKLMNOPQRSTUVWXYZabcdefghijklmnopqrstuvwxyz0123456789+/".data

/-- Base64 groups of three bytes, with `=` padding. -/
def b64Go : List Nat → List Char
  | [] => []
  | [b1] => [base64Chars.getD (b1 / 4) 'A', base64Chars.getD (b1 % 4 * 16) 'A', '=', '=']
  | [b1, b2] =>
      [base64Chars.getD (b1 / 4) 'A', base64Chars.getD (b1 % 4 * 16 + b2 / 16) 'A',
       base64Chars.getD (b2 % 16 * 4) 'A', '=']
  | b1 :: b2 :: b3 :: rest =>
      base64Chars.getD (b1 / 4) 'A' :: base64Chars.getD (b1 % 4 * 16 + b2 / 16) 'A' ::
        base64Chars.getD (b2 % 16 * 4 + b3 / 64) 'A' :: base64Chars.getD (b3 % 64) 'A' ::
          b64Go rest

/-- RFC 4648 Base64 of a byte string. -/
def base64Encode (bytes : List Nat) : String := String.mk (b64Go bytes)

/-- Lower-case hex of a byte string — only used to state the test-vector
theorems below. -/
def bytesToHex (l : List Nat) : String :=
  String.mk ((l.map (fun b => ["0123456789abcdef".data.getD (b / 16) '0',
    "0123456789abcdef".data.getD (b % 16) '0'])).flatten)

/-- oauth.js `hash_function_sha1` (lines 219-221), modelled from the spec:
`cryptojs.HmacSHA1(base_string, key).toString(cryptojs.enc.Base64)`. -/
def hashFunctionSha1 (base_string key : String) : String :=
  base64Encode (hmac sha1Bytes (utf8Encode key) (utf8Encode base_string))

/-- oauth.js `hash_function_sha256` (lines 223-225), modelled from the spec:
`cryptojs.HmacSHA256(base_string, key).toString(cryptojs.enc.Base64)`. -/
def hashFunctionSha256 (base_string key : String) : String :=
  base64Encode (hmac sha256Bytes (utf8Encode key) (utf8Encode base_string))

/-! ## oauth.js — the signing engine -/

/-- The `consumer` option: key and secret. -/
structure Consumer where
  key : String
  secret : String
deriving DecidableEq, Repr

/-- The request object passed to `authorize` / `getBaseString`. -/
structure JsRequest where
  url : String
  method : String
  data : JsObj
deriving DecidableEq, Repr

/-- The `token` argument of `authorize`; either field may be absent. -/
structure OAuthToken where
  key : Option String
  secret : Option String
deriving DecidableEq, Repr

/-- The signer instance's fields after construction (oauth.js lines 13-32). -/
structure OAuthConfig where
  consumer : Consumer
  nonce_length : Nat
  version : String
  realm : String
  parameter_seperator : String
  last_ampersand : Bool
  signature_method : String
  hash_function : String → String → String

/-- The options record accepted by the `OAuth` constructor (`consumer` is
required; the constructor throws when it is missing, so its presence is
enforced by the type here). -/
structure OAuthOpts where
  consumer : Consumer
  nonce_length : Option Nat
  version : Option String
  realm : Option String
  parameter_seperator : Option String
  last_ampersand : Option Bool
  signature_method : Option String
  hash_function : Option (String → String → String)

/-- `opts.x || default` on a number: `0` is falsy. -/
def orDefaultNat (v : Option Nat) (d : Nat) : Nat :=
  match v with
  | none => d
  | some n => if n == 0 then d else n

/-- `opts.x || default` on a string: `""` is falsy. -/
def orDefaultStr (v : Option String) (d : String) : String :=
  match v with
  | none => d
  | some s => if s == "" then d else s

/-- The `OAuth` constructor (oauth.js lines 2-33): fills each option's
default; when the method is `PLAINTEXT` and no hash function was supplied it
installs `function(base_string, key) { return key; }`; with any other method
a missing hash function is an error. -/
def oauthNew (opts : OAuthOpts) : Except String OAuthConfig :=
  let sigMethod := orDefaultStr opts.signature_method "PLAINTEXT"
  let hashFn :=
    if sigMethod == "PLAINTEXT" && opts.hash_function.isNone then
      some (fun _ key => key)
    else opts.hash_function
  match hashFn with
  | none => .error "hash_function option is required"
  | some f =>
      .ok ⟨opts.consumer, orDefaultNat opts.nonce_length 32,
        orDefaultStr opts.version "1.0", opts.realm.getD "",
        orDefaultStr opts.parameter_seperator ", ",
        opts.last_ampersand.getD true, sigMethod, f⟩

/-- oauth.js `getTimeStamp` (lines 171-173): `Math.floor(Date.now() / 1000)`,
with the clock's millisecond reading passed in explicitly. -/
def getTimeStamp (nowMs : Nat) : Nat := nowMs / 1000

/-- The nonce alphabet (oauth.js line 163). -/
def wordCharacters : List Char :=
  "abcdefghijklmnopqrstuvwxyzABCDEFGHIJKLMNOPQRSTUVWXYZ0123456789".data

/-- oauth.js `getNonce` (lines 162-169): `nonce_length` draws of
`word_characters[Math.floor(Math.random() * 62)]`; `draws i % 62` stands for
the `i`-th value of `Math.floor(Math.random() * word_characters.length)`,
which always lies below 62. -/
def getNonce (cfg : OAuthConfig) (draws : Nat → Nat) : String :=
  String.mk ((List.range cfg.nonce_length).map
    (fun i => wordCharacters.getD (draws i % 62) 'a'))

/-- oauth.js `getSigningKey` (lines 87-93). -/
def getSigningKey (cfg : OAuthConfig) (token_secret : Option String) : String :=
  let ts := token_secret.getD ""
  if !cfg.last_ampersand && ts == "" then percentEncode cfg.consumer.secret
  else percentEncode cfg.consumer.secret ++ "&" ++ percentEncode ts

/-- oauth.js `getBaseUrl` (lines 95-97): `url.split('?')[0]`. -/
def getBaseUrl (url : String) : String := (jsSplit url "?").headD ""

/-- One `deParam` loop step: `item[1] = item[1] || ''` then
`data[item[0]] = decodeURIComponent(item[1])`. -/
def deParamStep (data : JsObj) (item : String) : Option JsObj :=
  let parts := jsSplit item "="
  let key := parts.headD ""
  let raw := (parts.drop 1).headD ""
  (jsDecodeURIComponent raw).map (fun v => setKey data key (.str v))

/-- oauth.js `deParam` (lines 99-110). -/
def deParam (s : String) : Option JsObj := (jsSplit s "&").foldlM deParamStep []

/-- oauth.js `deParamUrl` (lines 112-115): an empty object when the URL has no
`?`, else `deParam` of the second `split('?')` piece. -/
def deParamUrl (url : String) : Option JsObj :=
  let tmp := jsSplit url "?"
  if tmp.length == 1 then some [] else deParam ((tmp.drop 1).headD "")

/-- Serialization of one property by the `getParameterString` loop
(oauth.js lines 69-82): an array value is sorted and its items joined with a
`&` only *between* items (`i < value.length - 1`), so nothing separates the
last item from whatever follows; a string value is emitted as `key=value&`. -/
def paramPairString (k : String) (v : JsVal) : String :=
  match v with
  | .arr l =>
      let sorted := jsSortStrs l
      String.join (sorted.enum.map (fun p =>
        k ++ "=" ++ p.2 ++ if p.1 + 1 < sorted.length then "&" else ""))
  | .str s => k ++ "=" ++ s ++ "&"

/-- The values `getParameterString` leaves behind in the two objects the
source mutates in place: `request.data` gains the URL's query parameters, and
`oauth_data` gains all of `request.data`. -/
structure ParamStringResult where
  str : String
  oauth_data : JsObj
  request_data : JsObj
deriving DecidableEq, Repr

/-- oauth.js `getParameterString` (lines 65-85). `mergeObject` mutates its
first argument, so after the nested merges `request.data` *is* the inner
merge result and `oauth_data` *is* the outer one; both are returned. -/
def getParameterString (request : JsRequest) (oauth_data : JsObj) :
    Option ParamStringResult :=
  (deParamUrl request.url).map (fun q =>
    let request_data := mergeObject request.data q
    let od := mergeObject oauth_data request_data
    let base_string_data := sortObject (percentEncodeData od)
    let data_str :=
      String.join ((iterOrder base_string_data).map (fun p => paramPairString p.1 p.2))
    ⟨jsSliceTrim data_str 1, od, request_data⟩)

/-- oauth.js `getBaseString` (lines 61-63). -/
def getBaseString (request : JsRequest) (oauth_data : JsObj) :
    Option (String × ParamStringResult) :=
  (getParameterString request oauth_data).map (fun r =>
    (jsToUpperCase request.method ++ "&" ++ percentEncode (getBaseUrl request.url) ++
      "&" ++ percentEncode r.str, r))

/-- oauth.js `getSignature` (lines 57-59): the configured hash function
applied to the base string and the signing key. -/
def getSignature (cfg : OAuthConfig) (request : JsRequest)
    (token_secret : Option String) (oauth_data : JsObj) :
    Option (String × ParamStringResult) :=
  (getBaseString request oauth_data).map (fun p =>
    (cfg.hash_function p.1 (getSigningKey cfg token_secret), p.2))

/-- What `authorize` leaves behind: the object it returns (which, through
`mergeObject`'s in-place semantics, also carries the request's parameters)
and the caller's `request.data` after the call. -/
structure AuthResult where
  oauth_data : JsObj
  request_data : JsObj
deriving DecidableEq, Repr

/-- oauth.js `authorize` (lines 35-55) with the nonce and timestamp passed
explicitly. `oauth_token` is added only when `token.key` is truthy; the
signature is computed and then stored on the (by now merged) object. -/
def authorizeWith (cfg : OAuthConfig) (request : JsRequest) (token : OAuthToken)
    (nonce : String) (timestamp : Nat) : Option AuthResult :=
  let od0 : JsObj :=
    [("oauth_consumer_key", .str cfg.consumer.key),
     ("oauth_nonce", .str nonce),
     ("oauth_signature_method", .str cfg.signature_method),
     ("oauth_timestamp", .str (toString timestamp)),
     ("oauth_version", .str cfg.version)]
  let od1 :=
    match token.key with
    | some k => if k == "" then od0 else setKey od0 "oauth_token" (.str k)
    | none => od0
  (getSignature cfg request token.secret od1).map (fun p =>
    ⟨setKey p.2.oauth_data "oauth_signature" (.str p.1), p.2.request_data⟩)

/-- oauth.js `authorize`, drawing the nonce from the randomness stream
`draws` and the timestamp from the millisecond clock reading `nowMs`. -/
def authorize (cfg : OAuthConfig) (request : JsRequest) (token : OAuthToken)
    (draws : Nat → Nat) (nowMs : Nat) : Option AuthResult :=
  authorizeWith cfg request token (getNonce cfg draws) (getTimeStamp nowMs)

/-- JavaScript string coercion of a property value (an array joins its
elements with `,`), as `percentEncode`'s argument is coerced in `toHeader`. -/
def valToString (v : JsVal) : String :=
  match v with
  | .str s => s
  | .arr l => String.intercalate "," l

/-- oauth.js `toHeader` (lines 144-160): the `Authorization` value. A key is
skipped when `key.indexOf('oauth_') === -1`, i.e. kept whenever it *contains*
`oauth_`; the trailing separator is removed with
`slice(0, -this.parameter_seperator.length)`. -/
def toHeader (cfg : OAuthConfig) (oauth_data : JsObj) : String :=
  jsSliceTrim
    ((iterOrder (sortObject oauth_data)).foldl (fun acc p =>
        if listContains p.1.data "oauth_".data then
          acc ++ percentEncode p.1 ++ "=\"" ++ percentEncode (valToString p.2) ++ "\"" ++
            cfg.parameter_seperator
        else acc)
      (if cfg.realm != "" then
        "OAuth " ++ percentEncode "realm" ++ "=\"" ++ percentEncode cfg.realm ++ "\"" ++
          cfg.parameter_seperator
      else "OAuth "))
    cfg.parameter_seperator.length

/-! ## secret.js and the dispatcher fragment of `executeQuery` -/

/-- A thrown JavaScript error: a `TypeError` or a plain `Error`. -/
inductive JsError where
  | typeError (msg : String)
  | error (msg : String)
deriving DecidableEq, Repr

/-- Decidable equality for thrown-or-returned results. -/
instance {ε α : Type} [DecidableEq ε] [DecidableEq α] : DecidableEq (Except ε α) :=
  fun a b =>
    match a, b with
    | .error e1, .error e2 =>
        if h : e1 = e2 then isTrue (by rw [h])
        else isFalse (by intro hh; cases hh; exact h rfl)
    | .ok v1, .ok v2 =>
        if h : v1 = v2 then isTrue (by rw [h])
        else isFalse (by intro hh; cases hh; exact h rfl)
    | .error _, .ok _ => isFalse (by intro hh; cases hh)
    | .ok _, .error _ => isFalse (by intro hh; cases hh)

/-- A credential entry's `consumer` record. -/
structure ConsumerCred where
  name : String
  key : String
  secret : String
deriving DecidableEq, Repr

/-- A credential entry's `token` record. -/
structure TokenCred where
  name : String
  id : String
  secret : String
deriving DecidableEq, Repr

/-- One entry of the credential table. -/
structure Credential where
  realm : String
  consumer : ConsumerCred
  token : TokenCred
deriving DecidableEq, Repr

/-- secret.js (lines 32-73): the shipped credential array. The stray comma
before the `1337_SB2` entry makes the literal sparse — index 2 is a hole,
modelled as `none`. -/
def credentials : List (Option Credential) :=
  [some ⟨"1337", ⟨"SuiteQL", "0123456789", "0123456789"⟩,
     ⟨"SuiteQL - User, Role", "0123456789", "0123456789"⟩⟩,
   some ⟨"1337_SB1", ⟨"SuiteQl", "0123456789", "0123456789"⟩,
     ⟨"SuiteQL - User, Role", "0123456789", "0123456789"⟩⟩,
   none,
   some ⟨"1337_SB2", ⟨"SuiteQl", "0123456789", "0123456789"⟩,
     ⟨"SuiteQL - User, Role", "0123456789", "0123456789"⟩⟩]

/-- `Array.prototype.find` with the predicate
`(entry) => entry.realm === realmKey` (executeQuery line 451): `find` visits
holes too, and reading `.realm` of `undefined` throws a `TypeError`. -/
def findCred (entries : List (Option Credential)) (realmKey : String) :
    Except JsError (Option Credential) :=
  match entries with
  | [] => .ok none
  | none :: _ =>
      .error (.typeError "Cannot read properties of undefined (reading 'realm')")
  | some c :: t => if c.realm == realmKey then .ok (some c) else findCred t realmKey

/-- executeQuery lines 450-454: look the resolved realm up in the credential
table; an unmatched realm (when `find` returns `undefined`) throws
`'No credentials found for remote account with realm: ' + realmKey`. -/
def lookupCredential (realmKey : String) : Except JsError Credential :=
  match findCred credentials realmKey with
  | .error e => .error e
  | .ok none =>
      .error (.error ("No credentials found for remote account with realm: " ++ realmKey))
  | .ok (some c) => .ok c

/-- Line terminators, which `.` in a JavaScript regular expression does not
match. -/
def isLineTerm (c : Char) : Bool :=
  c == '\n' || c == '\r' || c.toNat == 0x2028 || c.toNat == 0x2029

/-- Strip a literal prefix, or fail. -/
def dropLit : List Char → List Char → Option (List Char)
  | [], cs => some cs
  | _ :: _, [] => none
  | p :: ps, c :: cs => if c == p then dropLit ps cs else none

/-- The lazy group of `/^https:\/\/(.*?)\./`: the characters before the first
`.`; fails at a line terminator (which `.` cannot match) or at end of input
(no `.` to anchor on). -/
def scanLabel : List Char → Option (List Char)
  | [] => none
  | c :: cs =>
      if c == '.' then some []
      else if isLineTerm c then none
      else (scanLabel cs).map (fun l => c :: l)

/-- `url.match(/^https:\/\/(.*?)\./)`'s capture group (executeQuery
line 442). -/
def matchSubdomain (url : String) : Option String :=
  (dropLit "https://".data url.data).bind (fun rest => (scanLabel rest).map String.mk)

/-- `subdomain.replace('-', '_')` (executeQuery line 448): a *string* pattern,
so only the first `-` is replaced. -/
def replaceFirstHyphen : List Char → List Char
  | [] => []
  | c :: cs => if c == '-' then '_' :: cs else c :: replaceFirstHyphen cs

/-- executeQuery lines 442-448: extract the subdomain (a missing or empty
capture throws `Invalid remoteUrl format`), replace the first `-` with `_`,
upper-case. -/
def resolveRealm (url : String) : Except JsError String :=
  match matchSubdomain url with
  | none => .error (.error "Invalid remoteUrl format: unable to extract subdomain")
  | some sub =>
      if sub == "" then
        .error (.error "Invalid remoteUrl format: unable to extract subdomain")
      else .ok (jsToUpperCase (String.mk (replaceFirstHyphen sub.data)))

/-! ## Claim-side definitions

These definitions follow the spec's words, for comparison with the
source-derived functions above. -/

/-- Claim-side: the RFC 3986 unreserved characters
(ASCII alphanumerics and `- . _ ~`). -/
def rfc3986Unreserved (c : Char) : Bool :=
  (65 ≤ c.toNat && c.toNat ≤ 90) || (97 ≤ c.toNat && c.toNat ≤ 122) ||
  (48 ≤ c.toNat && c.toNat ≤ 57) || c == '-' || c == '.' || c == '_' || c == '~'

/-- Claim-side: RFC 3986 percent-encoding of one character — unreserved
characters pass through, everything else (including `! * ' ( )`) becomes
`%XX` escapes of its UTF-8 bytes. -/
def rfc3986Char (c : Char) : List Char :=
  if rfc3986Unreserved c then [c] else ((utf8Bytes c).map pctByte).flatten

/-- Claim-side: RFC 3986 percent-encoding of a string. -/
def rfc3986Encode (s : String) : String := String.mk ((s.data.map rfc3986Char).flatten)

/-- Claim-side: join a list of strings with a separator between items. -/
def joinSep (sep : String) : List String → String
  | [] => ""
  | [x] => x
  | x :: xs => x ++ sep ++ joinSep sep xs

/-- Concatenation of a list of strings. -/
def strConcat (l : List String) : String := l.foldr (· ++ ·) ""

/-- Claim-side reading of an `Authorization` value: the text after `OAuth `,
split into attributes on `, `, each attribute's name being the text before
its first `=`. -/
def headerAttrNames (s : String) : List String :=
  (jsSplit (String.mk (s.data.drop 6)) ", ").map (fun attr => (jsSplit attr "=").headD "")

/-! ## Toolkit lemmas about the object model -/

/-- The keys of an object, in insertion order. -/
def objKeys (o : JsObj) : List String := o.map Prod.fst

theorem string_mk_data (s : String) : String.mk s.data = s := rfl

theorem insertByIdx_perm (x : Nat × (String × JsVal))
    (l : List (Nat × (String × JsVal))) : List.Perm (insertByIdx x l) (x :: l) := by
  induction l with
  | nil => exact List.Perm.refl _
  | cons y ys ih =>
      simp only [insertByIdx]
      split
      · exact List.Perm.refl _
      · exact (ih.cons y).trans (List.Perm.swap x y ys)

theorem sortByIdx_perm (l : List (Nat × (String × JsVal))) :
    List.Perm (sortByIdx l) l := by
  induction l with
  | nil => exact List.Perm.refl _
  | cons y ys ih => exact (insertByIdx_perm y (sortByIdx ys)).trans (ih.cons y)

theorem insertSorted_perm (x : String) (l : List String) :
    List.Perm (insertSorted x l) (x :: l) := by
  induction l with
  | nil => exact List.Perm.refl _
  | cons y ys ih =>
      simp only [insertSorted]
      split
      · exact List.Perm.refl _
      · exact (ih.cons y).trans (List.Perm.swap x y ys)

theorem jsSortStrs_perm (l : List String) : List.Perm (jsSortStrs l) l := by
  induction l with
  | nil => exact List.Perm.refl _
  | cons y ys ih => exact (insertSorted_perm y (jsSortStrs ys)).trans (ih.cons y)

theorem filterMap_idx_snd (o : JsObj) :
    (o.filterMap (fun p => (arrayIndexVal p.1).map (fun n => (n, p)))).map Prod.snd
      = o.filter (fun p => (arrayIndexVal p.1).isSome) := by
  induction o with
  | nil => rfl
  | cons p t ih =>
      cases h : arrayIndexVal p.1 <;>
        simp [List.filterMap_cons, List.filter_cons, h, ih]

theorem iterOrder_perm (o : JsObj) : List.Perm (iterOrder o) o := by
  unfold iterOrder
  have h1 : List.Perm ((sortByIdx (o.filterMap
      (fun p => (arrayIndexVal p.1).map (fun n => (n, p))))).map Prod.snd)
        (o.filter (fun p => (arrayIndexVal p.1).isSome)) := by
    rw [← filterMap_idx_snd]
    exact (sortByIdx_perm _).map Prod.snd
  have h2 : o.filter (fun p => (arrayIndexVal p.1).isNone)
      = o.filter (fun p => !(arrayIndexVal p.1).isSome) := by
    apply List.filter_congr
    intro p _
    cases arrayIndexVal p.1 <;> rfl
  refine List.Perm.trans ?_ (List.filter_append_perm
    (fun p => (arrayIndexVal p.1).isSome) o)
  rw [h2]
  exact h1.append_right _

theorem iterKeys_perm (o : JsObj) : List.Perm (iterKeys o) (objKeys o) :=
  (iterOrder_perm o).map Prod.fst

theorem mem_iterKeys_iff (o : JsObj) (k : String) :
    k ∈ iterKeys o ↔ k ∈ objKeys o := (iterKeys_perm o).mem_iff

theorem mem_objKeys_setKey (o : JsObj) (k : String) (v : JsVal) (x : String) :
    x ∈ objKeys (setKey o k v) ↔ x = k ∨ x ∈ objKeys o := by
  induction o with
  | nil => simp [setKey, objKeys]
  | cons p t ih =>
      by_cases h : p.1 == k
      · have hk : p.1 = k := by simpa using h
        simp only [setKey, h, if_true]
        simp only [objKeys, List.map_cons, List.mem_cons, hk]
        tauto
      · simp only [setKey, h, Bool.false_eq_true, if_false]
        simp only [objKeys, List.map_cons, List.mem_cons]
        simp only [objKeys] at ih
        rw [ih]
        tauto

theorem getVal_setKey_ne (o : JsObj) (k k' : String) (v : JsVal) (h : k ≠ k') :
    getVal (setKey o k' v) k = getVal o k := by
  induction o with
  | nil => simp [setKey, getVal, beq_iff_eq, Ne.symm h]
  | cons p t ih =>
      by_cases hp : p.1 == k'
      · have hk : p.1 = k' := by simpa using hp
        simp [setKey, hp, getVal, hk, beq_iff_eq, Ne.symm h]
      · simp only [setKey, hp, Bool.false_eq_true, if_false, getVal]
        split <;> simp [ih]

theorem mem_objKeys_foldl_setKey (l : JsObj) (acc : JsObj) (x : String) :
    x ∈ objKeys (l.foldl (fun acc p => setKey acc p.1 p.2) acc) ↔
      x ∈ objKeys acc ∨ x ∈ objKeys l := by
  induction l generalizing acc with
  | nil => simp [objKeys]
  | cons p t ih =>
      rw [List.foldl_cons, ih (setKey acc p.1 p.2), mem_objKeys_setKey]
      simp only [objKeys, List.map_cons, List.mem_cons]
      tauto

theorem mem_objKeys_merge (a b : JsObj) (x : String) :
    x ∈ objKeys (mergeObject a b) ↔ x ∈ objKeys a ∨ x ∈ objKeys b := by
  unfold mergeObject
  rw [mem_objKeys_foldl_setKey]
  have h : objKeys (iterOrder b) = iterKeys b := rfl
  rw [h, mem_iterKeys_iff]

theorem getVal_foldl_setKey_notMem (l : JsObj) (acc : JsObj) (x : String)
    (h : x ∉ objKeys l) :
    getVal (l.foldl (fun acc p => setKey acc p.1 p.2) acc) x = getVal acc x := by
  induction l generalizing acc with
  | nil => rfl
  | cons p t ih =>
      simp only [objKeys, List.map_cons, List.mem_cons, not_or] at h
      rw [List.foldl_cons, ih _ (by simpa [objKeys] using h.2),
        getVal_setKey_ne _ _ _ _ h.1]

theorem getVal_merge_notMem (a b : JsObj) (x : String) (h : x ∉ objKeys b) :
    getVal (mergeObject a b) x = getVal a x := by
  unfold mergeObject
  exact getVal_foldl_setKey_notMem _ _ _ (by
    intro hx
    exact h ((mem_iterKeys_iff b x).mp hx))

/-! ## Validation of the embedded hash functions against published vectors -/

/-- FIPS 180-4 test vector: SHA-256 of `abc`. -/
theorem sha256_vector_abc : bytesToHex (sha256Bytes (utf8Encode "abc"))
    = "ba7816bf8f01cfea414140de5dae2223b00361a396177a9cb410ff61f20015ad" := by decide

/-- FIPS 180-4 test vector: SHA-1 of `abc`. -/
theorem sha1_vector_abc : bytesToHex (sha1Bytes (utf8Encode "abc"))
    = "a9993e364706816aba3e25717850c26c9cd0d89d" := by decide

/-- RFC 4648 Base64 vectors, including both padding shapes. -/
theorem base64_vectors :
    base64Encode (utf8Encode "Man") = "TWFu" ∧
    base64Encode (utf8Encode "Ma") = "TWE=" ∧
    base64Encode (utf8Encode "M") = "TQ==" := by decide

/-! ## The claims -/

/-- **C1.** The claim says the parameter string joins `key=value` pairs
separated by `&` with no trailing separator. The code does not: the
`getParameterString` loop adds a separator only *between* the items of an
array value (`i < value.length - 1`), so nothing separates an array's last
item from the following pair. For the form parameters
`{a: ["2","1"], b: "3"}` the parameter string comes out `a=1&a=2b=3`
(and the base string embeds it), not the `a=1&a=2&b=3` the claim requires. -/
theorem c1_parameter_string_separator_bug :
    (getParameterString (JsRequest.mk "https://x.example.com/p" "post"
          [("a", JsVal.arr ["2", "1"]), ("b", JsVal.str "3")]) []).map
        (fun r => r.str) = some "a=1&a=2b=3" ∧
    (getBaseString (JsRequest.mk "https://x.example.com/p" "post"
          [("a", JsVal.arr ["2", "1"]), ("b", JsVal.str "3")]) []).map Prod.fst
      = some "POST&https%3A%2F%2Fx.example.com%2Fp&a%3D1%26a%3D2b%3D3" ∧
    "a=1&a=2b=3" ≠ "a=1&a=2&b=3" := by decide

/-- **C2** (counterexample). The claim says *every* `-` in the host label is
replaced by `_`; `subdomain.replace('-', '_')` with a string pattern replaces
only the first, so `https://a-b-c.example.com/app` resolves to `A_B-C`, not
the `A_B_C` the claim demands. -/
theorem c2_counterexample :
    resolveRealm "https://a-b-c.example.com/app" = .ok "A_B-C" ∧
    "A_B-C" ≠ "A_B_C" := by decide

/-- **C7.** The claim says a realm with no matching entry fails with
`CredentialNotFoundError` and a matching realm returns its entry. Because the
shipped list is sparse at index 2 and `Array.prototype.find` visits holes,
`UNKNOWN` throws a `TypeError` instead of the credential-not-found error, and
`1337_SB2` — whose entry exists, after the hole — throws the same
`TypeError` instead of returning it. -/
theorem c7_lookup_throws_typeerror :
    lookupCredential "UNKNOWN"
      = .error (.typeError "Cannot read properties of undefined (reading 'realm')") ∧
    lookupCredential "1337_SB2"
      = .error (.typeError "Cannot read properties of undefined (reading 'realm')") ∧
    credentials.map (Option.map Credential.realm)
      = [some "1337", some "1337_SB1", none, some "1337_SB2"] := by decide

/-- **C10.** The shipped credential array has a hole at index 2, and for every
realm key other than `1337` and `1337_SB1` the lookup reaches that hole and
throws a `TypeError` (reading `realm` of `undefined`) — never the
credential-not-found error and never the `1337_SB2` credential. -/
theorem c10_sparse_hole_breaks_lookup :
    credentials[2]? = some none ∧
    ∀ rk : String, rk ≠ "1337" → rk ≠ "1337_SB1" →
      lookupCredential rk
        = .error (.typeError "Cannot read properties of undefined (reading 'realm')") := by
  refine ⟨rfl, fun rk h1 h2 => ?_⟩
  have hb1 : ("1337" == rk) = false := beq_eq_false_iff_ne.mpr (Ne.symm h1)
  have hb2 : ("1337_SB1" == rk) = false := beq_eq_false_iff_ne.mpr (Ne.symm h2)
  simp [lookupCredential, credentials, findCred, hb1, hb2]

/-- Witness for C10: the realm `1337_SB2`, whose credential exists beyond the
hole, still gets the `TypeError`. -/
theorem c10_sparse_hole_breaks_lookup_witness :
    lookupCredential "1337_SB2"
      = .error (.typeError "Cannot read properties of undefined (reading 'realm')") :=
  c10_sparse_hole_breaks_lookup.2 "1337_SB2" (by decide) (by decide)

/-- **C4** (counterexample). The claim says the object `authorize` returns
contains *only* the `oauth_…` keys. But `mergeObject` mutates `oauth_data` in
place while the signature is computed, so for a URL carrying `?foo=bar` the
returned object also carries `foo`. -/
theorem c4_counterexample :
    (authorize ⟨⟨"ck", "cs"⟩, 3, "1.0", "", ", ", true, "PLAINTEXT", fun _ key => key⟩
        ⟨"https://x.example.com/p?foo=bar", "POST", []⟩ ⟨some "tk", some "ts"⟩
        (fun _ => 0) 1000).map (fun a => objKeys a.oauth_data)
      = some ["oauth_consumer_key", "oauth_nonce", "oauth_signature_method",
              "oauth_timestamp", "oauth_version", "oauth_token", "foo",
              "oauth_signature"] ∧
    "foo" ∉ ["oauth_consumer_key", "oauth_nonce", "oauth_signature_method",
             "oauth_timestamp", "oauth_version", "oauth_token", "oauth_signature"] := by
  decide

/-- **C5** (counterexample). The claim says the header contains only
`oauth_`-prefixed attributes (beyond `realm`). `toHeader` keeps every key
*containing* `oauth_` (`indexOf(…) !== -1`), and `authorize`'s returned object
picks up URL query parameters, so a query parameter named `xoauth_x` appears
in the header although it is not `oauth_`-prefixed. -/
theorem c5_counterexample :
    (authorize ⟨⟨"ck", "cs"⟩, 3, "1.0", "", ", ", true, "PLAINTEXT", fun _ key => key⟩
        ⟨"https://x.example.com/p?xoauth_x=v", "POST", []⟩ ⟨none, none⟩
        (fun _ => 0) 1000).map (fun a =>
          toHeader ⟨⟨"ck", "cs"⟩, 3, "1.0", "", ", ", true, "PLAINTEXT", fun _ key => key⟩
            a.oauth_data)
      = some ("OAuth oauth_consumer_key=\"ck\", oauth_nonce=\"aaa\", oauth_signature=\"cs%26\", oauth_signature_method=\"PLAINTEXT\", oauth_timestamp=\"1\", oauth_version=\"1.0\", xoauth_x=\"v\"") ∧
    "xoauth_x" ∈ headerAttrNames ("OAuth oauth_consumer_key=\"ck\", oauth_nonce=\"aaa\", oauth_signature=\"cs%26\", oauth_signature_method=\"PLAINTEXT\", oauth_timestamp=\"1\", oauth_version=\"1.0\", xoauth_x=\"v\"") ∧
    listStartsWith "xoauth_x".data "oauth_".data = false := by decide

/-- **C8.** The computed signature (indeed the whole `authorize` result) is a
pure function of the request, token, credential configuration, nonce and
timestamp: two calls in different global states (different randomness streams
and clock readings) that draw the same nonce and the same whole-second
timestamp produce identical results. -/
theorem c8_signature_pure (cfg : OAuthConfig) (req : JsRequest) (tok : OAuthToken)
    (d1 d2 : Nat → Nat) (m1 m2 : Nat)
    (hn : getNonce cfg d1 = getNonce cfg d2) (ht : m1 / 1000 = m2 / 1000) :
    authorize cfg req tok d1 m1 = authorize cfg req tok d2 m2 := by
  unfold authorize getTimeStamp
  rw [hn, ht]

/-- Witness for C8: two calls under different randomness streams and clock
readings that agree on the drawn nonce and the whole second. -/
theorem c8_signature_pure_witness :
    authorize ⟨⟨"ck", "cs"⟩, 2, "1.0", "", ", ", true, "PLAINTEXT", fun _ key => key⟩
        ⟨"https://x.example.com/p", "POST", []⟩ ⟨some "tk", some "ts"⟩ (fun i => i) 2000
      = authorize ⟨⟨"ck", "cs"⟩, 2, "1.0", "", ", ", true, "PLAINTEXT", fun _ key => key⟩
        ⟨"https://x.example.com/p", "POST", []⟩ ⟨some "tk", some "ts"⟩
        (fun i => if i < 2 then i else 99) 2999 :=
  c8_signature_pure _ _ _ _ _ _ _ (by decide) (by decide)

/-- **C3.** With the constructor's defaults (`last_ampersand` true), the
signing key is `percentEncode(consumer.secret) + "&" +
percentEncode(token.secret)` — the trailing `&` kept when no token secret is
supplied — and `getSignature` returns the signing key itself under
`PLAINTEXT`, and the Base64 of the HMAC (SHA-1 / SHA-256) of the base string
keyed by the signing key under `HMAC-SHA1` / `HMAC-SHA256`; a concrete
HMAC-SHA256 signature is pinned at the end. -/
theorem c3_signing_key_and_signature_dispatch :
    (∀ (c : Consumer) (realm : String) (req : JsRequest) (ts : Option String)
        (od : JsObj),
      oauthNew ⟨c, none, none, some realm, none, none, some "PLAINTEXT", none⟩
        = .ok ⟨c, 32, "1.0", realm, ", ", true, "PLAINTEXT", fun _ key => key⟩ ∧
      getSigningKey ⟨c, 32, "1.0", realm, ", ", true, "PLAINTEXT", fun _ key => key⟩ ts
        = percentEncode c.secret ++ "&" ++ percentEncode (ts.getD "") ∧
      getSignature ⟨c, 32, "1.0", realm, ", ", true, "PLAINTEXT", fun _ key => key⟩
          req ts od
        = (getBaseString req od).map (fun p =>
            (percentEncode c.secret ++ "&" ++ percentEncode (ts.getD ""), p.2)) ∧
      oauthNew ⟨c, none, none, some realm, none, none, some "HMAC-SHA1",
          some hashFunctionSha1⟩
        = .ok ⟨c, 32, "1.0", realm, ", ", true, "HMAC-SHA1", hashFunctionSha1⟩ ∧
      getSignature ⟨c, 32, "1.0", realm, ", ", true, "HMAC-SHA1", hashFunctionSha1⟩
          req ts od
        = (getBaseString req od).map (fun p =>
            (base64Encode (hmac sha1Bytes
              (utf8Encode (percentEncode c.secret ++ "&" ++ percentEncode (ts.getD "")))
              (utf8Encode p.1)), p.2)) ∧
      oauthNew ⟨c, none, none, some realm, none, none, some "HMAC-SHA256",
          some hashFunctionSha256⟩
        = .ok ⟨c, 32, "1.0", realm, ", ", true, "HMAC-SHA256", hashFunctionSha256⟩ ∧
      getSignature ⟨c, 32, "1.0", realm, ", ", true, "HMAC-SHA256", hashFunctionSha256⟩
          req ts od
        = (getBaseString req od).map (fun p =>
            (base64Encode (hmac sha256Bytes
              (utf8Encode (percentEncode c.secret ++ "&" ++ percentEncode (ts.getD "")))
              (utf8Encode p.1)), p.2))) ∧
    (getSignature ⟨⟨"ck", "cs"⟩, 32, "1.0", "R", ", ", true, "HMAC-SHA256",
          hashFunctionSha256⟩
        ⟨"https://x.y/p", "post", []⟩ (some "ts") [("oauth_nonce", JsVal.str "N")]).map
        Prod.fst
      = some "mgTJWrDH2S1HVF144sAAKiv1W7h5+VvtRaSUlth45tM=" :=
  ⟨fun c realm req ts od => ⟨rfl, rfl, rfl, rfl, rfl, rfl, rfl⟩, by decide⟩

/-! ## C2 — realm resolution, amended -/

theorem dropLit_append (p s : List Char) : dropLit p (p ++ s) = some s := by
  induction p with
  | nil => rfl
  | cons c cs ih => simp [dropLit, ih]

theorem scanLabel_append (l r : List Char) (h1 : '.' ∉ l)
    (h2 : ∀ c ∈ l, isLineTerm c = false) :
    scanLabel (l ++ '.' :: r) = some l := by
  induction l with
  | nil => simp [scanLabel]
  | cons c cs ih =>
      have h1' : '.' ∉ cs := fun hm => h1 (List.mem_cons_of_mem _ hm)
      have hc : c ≠ '.' := fun he => h1 (he ▸ List.mem_cons_self c cs)
      have hterm : isLineTerm c = false := h2 c (List.mem_cons_self c cs)
      simp only [List.cons_append, scanLabel]
      rw [if_neg (by simp [hc]), if_neg (by simp [hterm])]
      simp only [List.append_eq]
      rw [ih h1' (fun x hx => h2 x (List.mem_cons_of_mem _ hx))]
      rfl

theorem scanLabel_no_dot (l : List Char) (h : '.' ∉ l) : scanLabel l = none := by
  induction l with
  | nil => rfl
  | cons c cs ih =>
      have hc : c ≠ '.' := fun he => h (he ▸ List.mem_cons_self c cs)
      simp only [scanLabel]
      rw [if_neg (by simp [hc])]
      by_cases ht : isLineTerm c
      · simp [ht]
      · simp [ht, ih (fun hm => h (List.mem_cons_of_mem _ hm))]

/-- **C2** (amended). For a URL `https://<label>.<rest>` — non-empty label,
no `.` and no line terminator inside the label — realm resolution returns the
label with its *first* `-` replaced by `_`, upper-cased; any URL whose text
after `https://` carries no `.` fails with the invalid-URL error. -/
theorem c2_realm_resolution :
    (∀ label rest : String, label ≠ "" → '.' ∉ label.data →
        (∀ c ∈ label.data, isLineTerm c = false) →
        resolveRealm ("https://" ++ label ++ "." ++ rest)
          = .ok (jsToUpperCase (String.mk (replaceFirstHyphen label.data)))) ∧
    (∀ piece : String, '.' ∉ piece.data →
        resolveRealm ("https://" ++ piece)
          = .error (.error "Invalid remoteUrl format: unable to extract subdomain")) := by
  constructor
  · intro label rest h1 h2 h3
    have hdata : ("https://" ++ label ++ "." ++ rest).data
        = "https://".data ++ (label.data ++ '.' :: rest.data) := by
      cases label with
      | mk ld =>
          cases rest with
          | mk rd => simp [String.append, List.append_assoc]
    have hne : (String.mk label.data == "") = false := by
      rw [string_mk_data]
      exact beq_eq_false_iff_ne.mpr h1
    unfold resolveRealm matchSubdomain
    rw [hdata, dropLit_append]
    simp only [Option.some_bind, scanLabel_append label.data rest.data h2 h3,
      Option.map_some']
    simp [hne]
  · intro piece hnd
    have hdata : ("https://" ++ piece).data = "https://".data ++ piece.data := by
      cases piece with
      | mk pd => simp [String.append]
    unfold resolveRealm matchSubdomain
    rw [hdata, dropLit_append]
    simp [scanLabel_no_dot piece.data hnd]

/-- Witness for C2: the spec's own example URL and a dotless one. -/
theorem c2_realm_resolution_witness :
    resolveRealm ("https://" ++ "1337-sb1" ++ "." ++ "restlets.example.com/app")
      = .ok (jsToUpperCase (String.mk (replaceFirstHyphen "1337-sb1".data))) ∧
    resolveRealm ("https://" ++ "1337restletsexamplecom/app")
      = .error (.error "Invalid remoteUrl format: unable to extract subdomain") :=
  ⟨c2_realm_resolution.1 "1337-sb1" "restlets.example.com/app" (by decide) (by decide)
      (by decide),
   c2_realm_resolution.2 "1337restletsexamplecom/app" (by decide)⟩

/-! ## C9 — authorize mutates its inputs -/

/-- **C9.** `mergeObject` copies into its first argument and returns it, so
after `authorize` (i) the caller's `request.data` has become the merge of its
old value with the URL's query parameters, and (ii) every one of those keys
is also present in the oauth-parameter object `authorize` returns (the one
`getHeaders` then passes to `toHeader`). -/
theorem c9_authorize_mutates_inputs (cfg : OAuthConfig) (req : JsRequest)
    (tok : OAuthToken) (draws : Nat → Nat) (nowMs : Nat) (q : JsObj) (a : AuthResult)
    (hq : deParamUrl req.url = some q)
    (ha : authorize cfg req tok draws nowMs = some a) :
    a.request_data = mergeObject req.data q ∧
    (∀ k, k ∈ objKeys q → k ∈ objKeys a.request_data) ∧
    (∀ k, k ∈ objKeys a.request_data → k ∈ objKeys a.oauth_data) := by
  unfold authorize authorizeWith getSignature getBaseString getParameterString at ha
  rw [hq] at ha
  simp only [Option.map_some', Option.some.injEq] at ha
  subst ha
  refine ⟨rfl, fun k hk => ?_, fun k hk => ?_⟩
  · exact (mem_objKeys_merge _ _ _).mpr (Or.inr hk)
  · exact (mem_objKeys_setKey _ _ _ _).mpr
      (Or.inr ((mem_objKeys_merge _ _ _).mpr (Or.inr hk)))

/-- Witness for C9: a URL carrying `?foo=bar`; after `authorize`, the
caller-visible `request.data` holds `foo`, and so does the returned map. -/
theorem c9_authorize_mutates_inputs_witness :
    deParamUrl "https://x.example.com/p?foo=bar" = some [("foo", JsVal.str "bar")] ∧
    authorize ⟨⟨"ck", "cs"⟩, 3, "1.0", "", ", ", true, "PLAINTEXT", fun _ key => key⟩
        ⟨"https://x.example.com/p?foo=bar", "POST", []⟩ ⟨some "tk", some "ts"⟩
        (fun _ => 0) 1000
      = some ⟨[("oauth_consumer_key", JsVal.str "ck"), ("oauth_nonce", JsVal.str "aaa"),
          ("oauth_signature_method", JsVal.str "PLAINTEXT"),
          ("oauth_timestamp", JsVal.str "1"), ("oauth_version", JsVal.str "1.0"),
          ("oauth_token", JsVal.str "tk"), ("foo", JsVal.str "bar"),
          ("oauth_signature", JsVal.str "cs&ts")], [("foo", JsVal.str "bar")]⟩ ∧
    (⟨[("oauth_consumer_key", JsVal.str "ck"), ("oauth_nonce", JsVal.str "aaa"),
        ("oauth_signature_method", JsVal.str "PLAINTEXT"),
        ("oauth_timestamp", JsVal.str "1"), ("oauth_version", JsVal.str "1.0"),
        ("oauth_token", JsVal.str "tk"), ("foo", JsVal.str "bar"),
        ("oauth_signature", JsVal.str "cs&ts")], [("foo", JsVal.str "bar")]⟩ :
      AuthResult).request_data
      = mergeObject ([] : JsObj) [("foo", JsVal.str "bar")] :=
  ⟨by decide, by decide,
   (c9_authorize_mutates_inputs
      ⟨⟨"ck", "cs"⟩, 3, "1.0", "", ", ", true, "PLAINTEXT", fun _ key => key⟩
      ⟨"https://x.example.com/p?foo=bar", "POST", []⟩ ⟨some "tk", some "ts"⟩
      (fun _ => 0) 1000 [("foo", JsVal.str "bar")]
      ⟨[("oauth_consumer_key", JsVal.str "ck"), ("oauth_nonce", JsVal.str "aaa"),
        ("oauth_signature_method", JsVal.str "PLAINTEXT"),
        ("oauth_timestamp", JsVal.str "1"), ("oauth_version", JsVal.str "1.0"),
        ("oauth_token", JsVal.str "tk"), ("foo", JsVal.str "bar"),
        ("oauth_signature", JsVal.str "cs&ts")], [("foo", JsVal.str "bar")]⟩
      (by decide) (by decide)).1⟩

/-! ## C4 — authorize's result keys, amended -/

theorem getD_mem_of_lt {α : Type} (l : List α) (n : Nat) (d : α) (h : n < l.length) :
    l.getD n d ∈ l := by
  rw [List.getD_eq_getElem l d h]
  exact List.getElem_mem h

theorem getNonce_length (cfg : OAuthConfig) (draws : Nat → Nat) :
    (getNonce cfg draws).length = cfg.nonce_length := by
  simp [getNonce, String.length]

theorem getNonce_chars (cfg : OAuthConfig) (draws : Nat → Nat) :
    ∀ c ∈ (getNonce cfg draws).data, c ∈ wordCharacters := by
  intro c hc
  simp only [getNonce, List.mem_map] at hc
  obtain ⟨i, _, rfl⟩ := hc
  exact getD_mem_of_lt _ _ _ (by
    have : draws i % 62 < 62 := Nat.mod_lt _ (by omega)
    simpa [wordCharacters] using this)

/-- **C4** (amended). The object `authorize` returns carries the claimed
`oauth_…` keys *together with* every key of `request.data` and every key
parsed from the URL's query string (`mergeObject` mutates the oauth map while
the signature is computed); `oauth_token` appears exactly when a truthy
(non-empty) token key was supplied. The nonce is `nonce_length` characters
from `[A-Za-z0-9]`, and the timestamp is the millisecond clock reading in
whole seconds; both are stored unless a request parameter of the same name
overwrites them. -/
theorem c4_authorize_result_keys (cfg : OAuthConfig) (req : JsRequest)
    (tok : OAuthToken) (draws : Nat → Nat) (nowMs : Nat) (q : JsObj) (a : AuthResult)
    (hq : deParamUrl req.url = some q)
    (ha : authorize cfg req tok draws nowMs = some a) :
    (∀ k, k ∈ objKeys a.oauth_data ↔
        (k ∈ ["oauth_consumer_key", "oauth_nonce", "oauth_signature_method",
              "oauth_timestamp", "oauth_version", "oauth_signature"] ∨
         (∃ tk, tok.key = some tk ∧ tk ≠ "" ∧ k = "oauth_token") ∨
         k ∈ objKeys req.data ∨ k ∈ objKeys q)) ∧
    (getNonce cfg draws).length = cfg.nonce_length ∧
    (∀ c, c ∈ (getNonce cfg draws).data → c ∈ wordCharacters) ∧
    ("oauth_nonce" ∉ objKeys req.data → "oauth_nonce" ∉ objKeys q →
      getVal a.oauth_data "oauth_nonce" = some (.str (getNonce cfg draws))) ∧
    ("oauth_timestamp" ∉ objKeys req.data → "oauth_timestamp" ∉ objKeys q →
      getVal a.oauth_data "oauth_timestamp" = some (.str (toString (nowMs / 1000)))) := by
  unfold authorize authorizeWith getSignature getBaseString getParameterString
    getTimeStamp at ha
  rw [hq] at ha
  simp only [Option.map_some', Option.some.injEq] at ha
  subst ha
  refine ⟨fun k => ?_, getNonce_length cfg draws, getNonce_chars cfg draws,
    fun hn1 hn2 => ?_, fun ht1 ht2 => ?_⟩
  · rw [mem_objKeys_setKey, mem_objKeys_merge, mem_objKeys_merge]
    generalize (k ∈ objKeys req.data) = A
    generalize (k ∈ objKeys q) = B
    cases htk : tok.key with
    | none =>
        simp only [objKeys, List.map_cons, List.map_nil, List.mem_cons,
          List.not_mem_nil, or_false, reduceCtorEq, false_and, exists_false]
        tauto
    | some tk =>
        by_cases he : tk = ""
        · subst he
          simp only [beq_self_eq_true, if_true, objKeys, List.map_cons, List.map_nil,
            List.mem_cons, List.not_mem_nil, or_false, Option.some.injEq,
            exists_eq_left', ne_eq, not_true_eq_false, false_and]
          tauto
        · have hbe : (tk == "") = false := beq_eq_false_iff_ne.mpr he
          simp only [hbe, Bool.false_eq_true, if_false]
          rw [mem_objKeys_setKey]
          simp only [objKeys, List.map_cons, List.map_nil, List.mem_cons,
            List.not_mem_nil, or_false, Option.some.injEq, exists_eq_left', ne_eq]
          simp only [he, not_false_eq_true, true_and]
          tauto
  · rw [getVal_setKey_ne _ _ _ _ (by decide),
      getVal_merge_notMem _ _ _ (by
        intro hm
        rcases (mem_objKeys_merge _ _ _).mp hm with h | h
        · exact hn1 h
        · exact hn2 h)]
    cases tok.key with
    | none => simp [getVal]
    | some tk =>
        by_cases he : (tk == "")
        · simp [he, getVal]
        · simp only [he, Bool.false_eq_true, if_false]
          rw [getVal_setKey_ne _ _ _ _ (by decide)]
          simp [getVal]
  · rw [getVal_setKey_ne _ _ _ _ (by decide),
      getVal_merge_notMem _ _ _ (by
        intro hm
        rcases (mem_objKeys_merge _ _ _).mp hm with h | h
        · exact ht1 h
        · exact ht2 h)]
    cases tok.key with
    | none => simp [getVal]
    | some tk =>
        by_cases he : (tk == "")
        · simp [he, getVal]
        · simp only [he, Bool.false_eq_true, if_false]
          rw [getVal_setKey_ne _ _ _ _ (by decide)]
          simp [getVal]

/-- Witness for C4: the counterexample request again; the theorem's key-set
law and the stored nonce/timestamp instantiate concretely. -/
theorem c4_authorize_result_keys_witness :
    getVal ((⟨[("oauth_consumer_key", JsVal.str "ck"), ("oauth_nonce", JsVal.str "aaa"),
        ("oauth_signature_method", JsVal.str "PLAINTEXT"),
        ("oauth_timestamp", JsVal.str "1"), ("oauth_version", JsVal.str "1.0"),
        ("oauth_token", JsVal.str "tk"), ("foo", JsVal.str "bar"),
        ("oauth_signature", JsVal.str "cs&ts")], [("foo", JsVal.str "bar")]⟩ :
      AuthResult).oauth_data) "oauth_nonce"
      = some (.str (getNonce
          ⟨⟨"ck", "cs"⟩, 3, "1.0", "", ", ", true, "PLAINTEXT", fun _ key => key⟩
          (fun _ => 0))) :=
  (c4_authorize_result_keys
    ⟨⟨"ck", "cs"⟩, 3, "1.0", "", ", ", true, "PLAINTEXT", fun _ key => key⟩
    ⟨"https://x.example.com/p?foo=bar", "POST", []⟩ ⟨some "tk", some "ts"⟩
    (fun _ => 0) 1000 [("foo", JsVal.str "bar")]
    ⟨[("oauth_consumer_key", JsVal.str "ck"), ("oauth_nonce", JsVal.str "aaa"),
      ("oauth_signature_method", JsVal.str "PLAINTEXT"),
      ("oauth_timestamp", JsVal.str "1"), ("oauth_version", JsVal.str "1.0"),
      ("oauth_token", JsVal.str "tk"), ("foo", JsVal.str "bar"),
      ("oauth_signature", JsVal.str "cs&ts")], [("foo", JsVal.str "bar")]⟩
    (by decide) (by decide)).2.2.2.1 (by decide) (by decide)

/-! ## C6 — percentEncode is exactly RFC 3986 percent-encoding -/

theorem replaceAllChar_append (c : Char) (rep : List Char) (a b : List Char) :
    replaceAllChar c rep (a ++ b)
      = replaceAllChar c rep a ++ replaceAllChar c rep b := by
  simp [replaceAllChar]

theorem replaceAllChar_noop (c : Char) (rep : List Char) (l : List Char)
    (h : ∀ y ∈ l, (y == c) = false) : replaceAllChar c rep l = l := by
  induction l with
  | nil => rfl
  | cons x t ih =>
      have hx := h x (List.mem_cons_self x t)
      simp only [replaceAllChar, List.map_cons, List.flatten_cons, hx,
        Bool.false_eq_true, if_false, List.singleton_append]
      simp only [replaceAllChar] at ih
      rw [ih (fun y hy => h y (List.mem_cons_of_mem _ hy))]

theorem hexUpper_mem (d : Nat) : hexUpper d ∈ "0123456789ABCDEF".data := by
  unfold hexUpper
  by_cases h : d < "0123456789ABCDEF".data.length
  · exact getD_mem_of_lt _ _ _ h
  · rw [List.getD_eq_default _ _ (by omega)]
    decide

theorem esc_chars (c : Char) :
    ∀ y ∈ ((utf8Bytes c).map pctByte).flatten, y ∈ '%' :: "0123456789ABCDEF".data := by
  intro y hy
  rw [List.mem_flatten] at hy
  obtain ⟨l, hl, hyl⟩ := hy
  rw [List.mem_map] at hl
  obtain ⟨b, _, rfl⟩ := hl
  simp only [pctByte, List.mem_cons, List.not_mem_nil, or_false] at hyl
  rcases hyl with rfl | rfl | rfl
  · exact List.mem_cons_self _ _
  · exact List.mem_cons_of_mem _ (hexUpper_mem _)
  · exact List.mem_cons_of_mem _ (hexUpper_mem _)

theorem unescaped_not_five (c : Char) (hu : uriUnescaped c = true)
    (h1 : c ≠ '!') (h2 : c ≠ '*') (h3 : c ≠ '\'') (h4 : c ≠ '(') (h5 : c ≠ ')') :
    rfc3986Unreserved c = true := by
  simp only [uriUnescaped, Bool.or_eq_true, Bool.and_eq_true, decide_eq_true_eq,
    beq_iff_eq] at hu
  simp only [rfc3986Unreserved, Bool.or_eq_true, Bool.and_eq_true, decide_eq_true_eq,
    beq_iff_eq]
  tauto

theorem unreserved_unescaped (c : Char) (hr : rfc3986Unreserved c = true) :
    uriUnescaped c = true := by
  simp only [rfc3986Unreserved, Bool.or_eq_true, Bool.and_eq_true, decide_eq_true_eq,
    beq_iff_eq] at hr
  simp only [uriUnescaped, Bool.or_eq_true, Bool.and_eq_true, decide_eq_true_eq,
    beq_iff_eq]
  tauto

/-- The five-replacement chain on one character's `encodeURIComponent` output
equals the claim-side RFC 3986 encoding of that character. -/
theorem chain_single (c : Char) :
    replaceAllChar ')' ['%', '2', '9']
      (replaceAllChar '(' ['%', '2', '8']
        (replaceAllChar '\'' ['%', '2', '7']
          (replaceAllChar '*' ['%', '2', 'A']
            (replaceAllChar '!' ['%', '2', '1'] (encChar c)))))
      = rfc3986Char c := by
  by_cases h1 : c = '!'
  · subst h1; decide
  by_cases h2 : c = '*'
  · subst h2; decide
  by_cases h3 : c = '\''
  · subst h3; decide
  by_cases h4 : c = '('
  · subst h4; decide
  by_cases h5 : c = ')'
  · subst h5; decide
  by_cases hu : uriUnescaped c
  · have hr : rfc3986Unreserved c = true := unescaped_not_five c hu h1 h2 h3 h4 h5
    have k1 : ∀ y ∈ [c], (y == '!') = false := by
      intro y hy
      simp only [List.mem_singleton] at hy
      subst hy
      exact beq_eq_false_iff_ne.mpr h1
    have k2 : ∀ y ∈ [c], (y == '*') = false := by
      intro y hy
      simp only [List.mem_singleton] at hy
      subst hy
      exact beq_eq_false_iff_ne.mpr h2
    have k3 : ∀ y ∈ [c], (y == '\'') = false := by
      intro y hy
      simp only [List.mem_singleton] at hy
      subst hy
      exact beq_eq_false_iff_ne.mpr h3
    have k4 : ∀ y ∈ [c], (y == '(') = false := by
      intro y hy
      simp only [List.mem_singleton] at hy
      subst hy
      exact beq_eq_false_iff_ne.mpr h4
    have k5 : ∀ y ∈ [c], (y == ')') = false := by
      intro y hy
      simp only [List.mem_singleton] at hy
      subst hy
      exact beq_eq_false_iff_ne.mpr h5
    simp only [encChar, hu, if_true, rfc3986Char, hr]
    rw [replaceAllChar_noop _ _ _ k1, replaceAllChar_noop _ _ _ k2,
      replaceAllChar_noop _ _ _ k3, replaceAllChar_noop _ _ _ k4,
      replaceAllChar_noop _ _ _ k5]
  · have hr : rfc3986Unreserved c = false := by
      cases hru : rfc3986Unreserved c
      · rfl
      · exact absurd (unreserved_unescaped c hru) (by simp [hu])
    simp only [encChar, hu, Bool.false_eq_true, if_false, rfc3986Char, hr]
    have hin := esc_chars c
    have noFive : ∀ x : Char, (∀ y ∈ ((utf8Bytes c).map pctByte).flatten,
        y ∈ '%' :: "0123456789ABCDEF".data) →
        (∀ y ∈ '%' :: "0123456789ABCDEF".data, (y == x) = false) →
        ∀ y ∈ ((utf8Bytes c).map pctByte).flatten, (y == x) = false :=
      fun x hmem hfree y hy => hfree y (hmem y hy)
    rw [replaceAllChar_noop _ _ _ (noFive '!' hin (by decide)),
      replaceAllChar_noop _ _ _ (noFive '*' hin (by decide)),
      replaceAllChar_noop _ _ _ (noFive '\'' hin (by decide)),
      replaceAllChar_noop _ _ _ (noFive '(' hin (by decide)),
      replaceAllChar_noop _ _ _ (noFive ')' hin (by decide))]

/-- **C6.** `percentEncode` equals the claim-side RFC 3986 percent-encoding —
the five extra replacements exactly close the gap between
`encodeURIComponent`'s unescaped set and the RFC's unreserved set — and both
are total functions on strings. -/
theorem c6_percent_encode_rfc3986 (s : String) : percentEncode s = rfc3986Encode s := by
  unfold percentEncode rfc3986Encode encodeURIComponent
  congr 1
  induction s.data with
  | nil => rfl
  | cons c t ih =>
      simp only [List.map_cons, List.flatten_cons]
      rw [replaceAllChar_append, replaceAllChar_append, replaceAllChar_append,
        replaceAllChar_append, replaceAllChar_append, ih]
      congr 1
      exact chain_single c

/-! ## C5 — the Authorization header's shape, amended -/

theorem str_ext {a b : String} (h : a.data = b.data) : a = b := by
  rw [← string_mk_data a, ← string_mk_data b, h]

theorem data_append (a b : String) : (a ++ b).data = a.data ++ b.data := by
  cases a
  cases b
  rfl

theorem str_append_assoc (a b c : String) : a ++ b ++ c = a ++ (b ++ c) := by
  apply str_ext
  simp [data_append]

theorem str_append_empty (a : String) : a ++ "" = a := by
  apply str_ext
  simp [data_append]

theorem str_empty_append (a : String) : "" ++ a = a := by
  apply str_ext
  simp [data_append]

theorem strConcat_cons (x : String) (xs : List String) :
    strConcat (x :: xs) = x ++ strConcat xs := rfl

/-- Joining `f x ++ sep` pieces is `joinSep` of the pieces plus one trailing
separator, for a non-empty list. -/
theorem strConcat_render {α : Type} (f : α → String) (sep : String) (xs : List α)
    (h : xs ≠ []) :
    strConcat (xs.map (fun x => f x ++ sep)) = joinSep sep (xs.map f) ++ sep := by
  induction xs with
  | nil => exact absurd rfl h
  | cons x t ih =>
      cases t with
      | nil => simp [strConcat, joinSep, str_append_empty]
      | cons y u =>
          rw [List.map_cons, strConcat_cons, ih (by simp)]
          simp only [List.map_cons, joinSep]
          simp [str_append_assoc]

theorem trim_append_sep2 (s : String) : jsSliceTrim (s ++ ", ") 2 = s := by
  apply str_ext
  unfold jsSliceTrim
  rw [if_neg (by decide)]
  show ((s ++ ", ").data.take ((s ++ ", ").data.length - 2)) = s.data
  rw [data_append]
  have h2 : (", " : String).data = [',', ' '] := rfl
  rw [h2]
  simp only [List.length_append, List.length_cons, List.length_nil]
  have h4 : s.data.length + (0 + 1 + 1) - 2 = s.data.length := by omega
  rw [h4]
  exact List.take_left s.data [',', ' ']

theorem setKey_fresh (o : JsObj) (k : String) (v : JsVal) (h : k ∉ objKeys o) :
    setKey o k v = o ++ [(k, v)] := by
  induction o with
  | nil => rfl
  | cons p t ih =>
      simp only [objKeys, List.map_cons, List.mem_cons, not_or] at h
      simp only [setKey, beq_eq_false_iff_ne.mpr (Ne.symm h.1), Bool.false_eq_true,
        if_false, List.cons_append]
      rw [ih (by simpa [objKeys] using h.2)]

theorem foldl_setKey_fresh (keys : List String) (f : String → JsVal) (acc : JsObj)
    (hd : ∀ k ∈ keys, k ∉ objKeys acc) (hn : keys.Nodup) :
    keys.foldl (fun acc k => setKey acc k (f k)) acc
      = acc ++ keys.map (fun k => (k, f k)) := by
  induction keys generalizing acc with
  | nil => simp
  | cons k ks ih =>
      rw [List.foldl_cons, setKey_fresh _ _ _ (hd k (List.mem_cons_self _ _)),
        ih _ ?_ (List.nodup_cons.mp hn).2]
      · simp [List.append_assoc]
      · intro k' hk'
        simp only [objKeys, List.map_append, List.map_cons, List.map_nil,
          List.mem_append, List.mem_cons, List.not_mem_nil, or_false]
        rintro (h | h)
        · exact hd k' (List.mem_cons_of_mem _ hk') (by simpa [objKeys] using h)
        · exact (List.nodup_cons.mp hn).1 (h ▸ hk')

theorem sortObject_eq (od : JsObj) (hnd : (objKeys od).Nodup) :
    sortObject od = (jsSortStrs (iterKeys od)).map
      (fun k => (k, (getVal od k).getD (.str "undefined"))) := by
  unfold sortObject
  rw [foldl_setKey_fresh _ _ _ (by intro k _; simp [objKeys])
    (((jsSortStrs_perm _).nodup_iff).mpr (((iterKeys_perm od).nodup_iff).mpr hnd))]
  rfl

theorem listContains_head_mem (l : List Char) (p : Char) (ps : List Char)
    (h : listContains l (p :: ps) = true) : p ∈ l := by
  induction l with
  | nil => simp [listContains, List.isEmpty] at h
  | cons c t ih =>
      simp only [listContains, Bool.or_eq_true] at h
      rcases h with h | h
      · simp only [listStartsWith, Bool.and_eq_true, beq_iff_eq] at h
        rw [← h.1]
        exact List.mem_cons_self c t
      · exact List.mem_cons_of_mem _ (ih h)

theorem index_key_no_oauth (k : String) (h : (arrayIndexVal k).isSome = true) :
    listContains k.data "oauth_".data = false := by
  have hd : k.data.all isDigitCh = true := by
    unfold arrayIndexVal at h
    split_ifs at h with h1 h2 h3
    · exact absurd h (by simp)
    · exact absurd h (by simp)
    · exact absurd h (by simp)
    · simpa using h2
  cases hco : listContains k.data "oauth_".data
  · rfl
  · exfalso
    have ho : 'o' ∈ k.data := listContains_head_mem _ _ _ hco
    have := List.all_eq_true.mp hd 'o' ho
    exact absurd this (by decide)

theorem iterOrder_filter_contains (x : JsObj) :
    (iterOrder x).filter (fun p => listContains p.1.data "oauth_".data)
      = x.filter (fun p => listContains p.1.data "oauth_".data) := by
  unfold iterOrder
  rw [List.filter_append]
  have h1 : ((sortByIdx (x.filterMap
      (fun p => (arrayIndexVal p.1).map (fun n => (n, p))))).map Prod.snd).filter
        (fun p => listContains p.1.data "oauth_".data) = [] := by
    rw [List.filter_eq_nil_iff]
    intro a ha
    have ha2 : a ∈ (x.filterMap
        (fun p => (arrayIndexVal p.1).map (fun n => (n, p)))).map Prod.snd :=
      ((sortByIdx_perm _).map Prod.snd).mem_iff.mp ha
    rw [filterMap_idx_snd] at ha2
    have hs := List.of_mem_filter ha2
    simp [index_key_no_oauth a.1 hs]
  have h2 : (x.filter (fun p => (arrayIndexVal p.1).isNone)).filter
      (fun p => listContains p.1.data "oauth_".data)
      = x.filter (fun p => listContains p.1.data "oauth_".data) := by
    rw [List.filter_filter]
    apply List.filter_congr
    intro p _
    cases hc : listContains p.1.data "oauth_".data
    · simp
    · cases harr : arrayIndexVal p.1 with
      | none => simp [harr]
      | some n =>
          exact absurd hc (by simp [index_key_no_oauth p.1 (by simp [harr])])
  rw [h1, h2, List.nil_append]

/-- Filtering and rendering the fresh sorted object's pairs is filtering and
rendering its key list. -/
theorem map_filter_pairify (keys : List String) (v : String → JsVal) :
    (((keys.map (fun k => (k, v k))).filter
        (fun p => listContains p.1.data "oauth_".data)).map
        (fun p => percentEncode p.1 ++ "=\"" ++ percentEncode (valToString p.2) ++ "\""))
      = ((keys.filter (fun k => listContains k.data "oauth_".data)).map
          (fun k => percentEncode k ++ "=\"" ++ percentEncode (valToString (v k)) ++ "\"")) := by
  induction keys with
  | nil => rfl
  | cons k t ih =>
      by_cases hc : listContains k.data "oauth_".data
      · simp only [List.map_cons, List.filter_cons, hc, if_true, ih]
      · have hcf : listContains k.data "oauth_".data = false := by simpa using hc
        simp only [List.map_cons, List.filter_cons, hcf, Bool.false_eq_true, if_false, ih]

/-- The `toHeader` loop over the (already `", "`-separated) configuration:
appending each kept attribute is concatenating the rendered kept pairs. -/
theorem toHeader_foldl (l : JsObj) (acc : String) :
    l.foldl (fun acc p =>
        if listContains p.1.data "oauth_".data then
          acc ++ percentEncode p.1 ++ "=\"" ++ percentEncode (valToString p.2) ++ "\""
            ++ ", "
        else acc) acc
      = acc ++ strConcat ((l.filter (fun p => listContains p.1.data "oauth_".data)).map
          (fun p => percentEncode p.1 ++ "=\"" ++ percentEncode (valToString p.2) ++ "\""
            ++ ", ")) := by
  induction l generalizing acc with
  | nil => simp [strConcat, str_append_empty]
  | cons p t ih =>
      by_cases hc : listContains p.1.data "oauth_".data
      · rw [List.foldl_cons, if_pos hc, ih]
        simp only [List.filter_cons, hc, if_true, List.map_cons, strConcat_cons]
        simp [str_append_assoc]
      · have hcf : listContains p.1.data "oauth_".data = false := by simpa using hc
        rw [List.foldl_cons, if_neg (by simp [hc]), ih]
        simp only [List.filter_cons, hcf, Bool.false_eq_true, if_false]

/-- **C5** (amended). With the dispatcher's `", "` separator and a
duplicate-free oauth-parameter map containing `oauth_consumer_key` (as every
map `authorize` produces does), the header is `OAuth `, then the quoted
percent-encoded `realm` attribute exactly when a non-empty realm is
configured, then exactly the attributes whose names *contain* `oauth_`
(`indexOf`, not a prefix test), each rendered `key="percentEncode(value)"`,
sorted by name, all joined by `", "`. -/
theorem c5_header_shape (cfg : OAuthConfig) (od : JsObj)
    (hsep : cfg.parameter_seperator = ", ")
    (hnd : (objKeys od).Nodup)
    (hex : "oauth_consumer_key" ∈ objKeys od) :
    toHeader cfg od
      = "OAuth " ++ joinSep ", "
          ((if cfg.realm ≠ "" then
              ["realm" ++ "=\"" ++ percentEncode cfg.realm ++ "\""] else [])
            ++ ((jsSortStrs (iterKeys od)).filter
                  (fun k => listContains k.data "oauth_".data)).map
                (fun k => percentEncode k ++ "=\"" ++
                  percentEncode (valToString ((getVal od k).getD (.str "undefined")))
                    ++ "\"")) := by
  have hattrs : ((iterOrder (sortObject od)).filter
        (fun p => listContains p.1.data "oauth_".data)).map
        (fun p => percentEncode p.1 ++ "=\"" ++ percentEncode (valToString p.2) ++ "\"")
      = ((jsSortStrs (iterKeys od)).filter
          (fun k => listContains k.data "oauth_".data)).map
          (fun k => percentEncode k ++ "=\"" ++
            percentEncode (valToString ((getVal od k).getD (.str "undefined"))) ++ "\"") := by
    rw [iterOrder_filter_contains, sortObject_eq od hnd, map_filter_pairify]
  have hkey : "oauth_consumer_key" ∈ (jsSortStrs (iterKeys od)).filter
      (fun k => listContains k.data "oauth_".data) := by
    rw [List.mem_filter]
    exact ⟨((jsSortStrs_perm _).mem_iff).mpr (((iterKeys_perm od).mem_iff).mpr hex),
      by decide⟩
  have hpairs_ne : (iterOrder (sortObject od)).filter
      (fun p => listContains p.1.data "oauth_".data) ≠ [] := by
    intro h0
    have hmm := hattrs
    rw [h0] at hmm
    have : ((jsSortStrs (iterKeys od)).filter
        (fun k => listContains k.data "oauth_".data)) = [] := by
      simpa using hmm.symm
    rw [this] at hkey
    exact absurd hkey (List.not_mem_nil _)
  unfold toHeader
  rw [hsep]
  have hlen : (", " : String).length = 2 := rfl
  rw [hlen, toHeader_foldl]
  rw [strConcat_render
    (fun p => percentEncode p.1 ++ "=\"" ++ percentEncode (valToString p.2) ++ "\"")
    ", " _ hpairs_ne, hattrs]
  by_cases hre : cfg.realm = ""
  · rw [hre]
    simp only [bne_self_eq_false, Bool.false_eq_true, if_false, ne_eq,
      not_true_eq_false, List.nil_append]
    rw [← str_append_assoc, trim_append_sep2]
  · have hbne : (cfg.realm != "") = true := by
      simp [bne_iff_ne, hre]
    rw [hbne]
    simp only [if_true, ne_eq, hre, not_false_eq_true, if_pos]
    have hrealm : percentEncode "realm" = "realm" := by decide
    rw [hrealm]
    obtain ⟨s, ss, hS⟩ : ∃ s ss, ((jsSortStrs (iterKeys od)).filter
        (fun k => listContains k.data "oauth_".data)).map
        (fun k => percentEncode k ++ "=\"" ++
          percentEncode (valToString ((getVal od k).getD (.str "undefined"))) ++ "\"")
        = s :: ss := by
      refine List.exists_cons_of_ne_nil ?_
      intro h0
      rw [List.map_eq_nil_iff] at h0
      rw [h0] at hkey
      exact absurd hkey (List.not_mem_nil _)
    rw [hS]
    rw [← str_append_assoc, trim_append_sep2]
    simp only [List.cons_append, joinSep]
    simp [str_append_assoc]
    rw [show ("OAuth realm=\"" : String) = "OAuth " ++ "realm=\"" from by decide,
      str_append_assoc]

/-- Witness for C5: a concrete map holding an `oauth_consumer_key`, a key
without `oauth_` (dropped) and an `xoauth_x` key (kept by the `indexOf`
test), under a configured realm. -/
theorem c5_header_shape_witness :
    toHeader ⟨⟨"ck", "cs"⟩, 3, "1.0", "R", ", ", true, "PLAINTEXT", fun _ key => key⟩
        [("oauth_consumer_key", JsVal.str "ck"), ("zz", JsVal.str "1"),
         ("xoauth_x", JsVal.str "v")]
      = "OAuth " ++ joinSep ", "
          ((if ("R" : String) ≠ "" then
              ["realm" ++ "=\"" ++ percentEncode "R" ++ "\""] else [])
            ++ ((jsSortStrs (iterKeys [("oauth_consumer_key", JsVal.str "ck"),
                  ("zz", JsVal.str "1"), ("xoauth_x", JsVal.str "v")])).filter
                  (fun k => listContains k.data "oauth_".data)).map
                (fun k => percentEncode k ++ "=\"" ++
                  percentEncode (valToString ((getVal
                    [("oauth_consumer_key", JsVal.str "ck"), ("zz", JsVal.str "1"),
                     ("xoauth_x", JsVal.str "v")] k).getD (.str "undefined")))
                    ++ "\"")) :=
  c5_header_shape _ _ rfl (by decide) (by decide)

end SuiteQL